import Mathlib

/-
  Verification of the two Gmail triage scripts in `scripts/create_filter.py`
  and `scripts/delete_messages.py`.

  Shallow embedding conventions:
  * Python strings are `List Char` (`Str`).
  * Gmail API "message reference" dicts (items of the `messages` array of a
    `users.messages.list` response) are association lists `List (Str × Str)`,
    so that `mess["id"]` and `mess.get("nextPageToken", None)` can be modelled
    faithfully (`dict_get`).
  * A fetched message (`users.messages.get`, format "full") is a structure
    with its `id` and its header list; the network `get` call is modelled by a
    pure environment function `fetch : Str → MessageData`.
  * Python `set` accumulation (`if v not in s: s.add(v)`) is modelled as a
    duplicate-free list in insertion order; the scripts never rely on the
    set's iteration order.
  * Terminal input is a pre-supplied list of response strings; a run that
    exhausts it while `input()` is still being called blocks forever, which
    the model reports as `RunStop.blockedOnInput`.
  * Runtime errors of the Python code (TypeError when iterating `None`,
    KeyError on a missing dict key, IndexError on `messages[-1]` of an empty
    list) become `RunStop.pyErr` values; the scripts' `except HttpError`
    does not catch any of these.
  * The `main` routines return the trace of externally visible mail-provider
    calls and file-system effects of a successful run (`ApiCall`); read-only
    calls that carry parameters relevant to the claims (the `list` call) are
    recorded, per-message `get` calls are not.
-/

deriving instance DecidableEq for Except

namespace Tidyup

abbrev Str := List Char

/-- One name/value pair of a message's header list. -/
structure Header where
  name : Str
  value : Str
deriving DecidableEq

/-- The part of a `users.messages.get(format:"full")` response the scripts
read: `message_data["id"]` and `message_data["payload"]["headers"]`. -/
structure MessageData where
  id : Str
  headers : List Header
deriving DecidableEq

/-- A message-reference dict from the `messages` array of a list response,
modelled as an association list of string keys to string values. -/
abbrev MsgDict := List (Str × Str)

/-- Python `d.get(k)` / `d[k]` lookup on a dict. -/
def dict_get (d : MsgDict) (k : Str) : Option Str :=
  List.lookup k d

/-- An existing Gmail filter, as read by `identify_unfiltered_emails`:
only `filter["criteria"]["from"]` is consulted. -/
structure FilterRule where
  criteria_from : Str
deriving DecidableEq

/-- A `users.messages.list` response after `.execute()`:
the optional `messages` array (`.get("messages")` yields `None` when the
key is absent) and the response-level `nextPageToken`, which neither script
ever reads. -/
structure ListResponse where
  messages : Option (List MsgDict)
  nextPageToken : Option Str
deriving DecidableEq

/-- Python runtime errors the modelled code can raise. -/
inductive PyErr where
  | typeError
  | keyError
  | indexError
deriving DecidableEq

/-- Why a modelled run fails to terminate normally. -/
inductive RunStop where
  | pyErr (e : PyErr)
  | blockedOnInput
  | fuelOut
deriving DecidableEq

def fromHeaderName : Str := "From".toList

def idKey : Str := "id".toList

def tokenKey : Str := "nextPageToken".toList

def trashLabel : Str := "TRASH".toList

def inboxLabel : Str := "INBOX".toList

def orSep : Str := " OR ".toList

def yStr : Str := "y".toList

def nStr : Str := "n".toList

/-- Python `str.lower()` (the scripts only compare the result against the
ASCII strings "y" and "n"). -/
def str_lower (s : Str) : Str := s.map Char.toLower

/-- Python `hay.startswith(needle)`: auxiliary for the substring test. -/
def py_startswith : Str → Str → Bool
  | [], [] => true
  | [], _ :: _ => false
  | _ :: _, [] => true
  | c :: cs, d :: ds => (c == d) && py_startswith cs ds

/-- Python `needle in hay` on strings: substring containment. -/
def py_in (needle : Str) : Str → Bool
  | [] => needle.isEmpty
  | c :: rest => py_startswith (c :: rest) needle || py_in needle rest

/-- The `re` scan for a closing `>` after an opening `<`: `.` in the pattern
`<(.*?)>` matches any character except a newline, and the lazy `*?` stops at
the first `>`. Returns the captured group, `none` if no `>` is reachable
without crossing a newline. -/
def find_close_nonl : Str → Option Str
  | [] => none
  | c :: rest =>
    if c = '>' then some []
    else if c = '\n' then none
    else (find_close_nonl rest).map (fun t => c :: t)

/-- `re.search(r"<(.*?)>", text)`: the leftmost starting position wins, so
the scan tries each `<` from the left and succeeds at the first one that has
a `>` after it with no intervening newline. -/
def re_search_angle : Str → Option Str
  | [] => none
  | c :: rest =>
    if c = '<' then
      match find_close_nonl rest with
      | some cap => some cap
      | none => re_search_angle rest
    else re_search_angle rest

/-- `extract_emails` (identical in both scripts): keep, for each sender, the
group captured by `re.search(r"<(.*?)>", text)` when the search succeeds. -/
def extract_emails (senders : List Str) : List Str :=
  senders.filterMap re_search_angle

/-- Specification-side scan: the text up to the first following `>`, with no
newline restriction. Used to state what the spec's words say extraction
returns. -/
def find_close : Str → Option Str
  | [] => none
  | c :: rest =>
    if c = '>' then some []
    else (find_close rest).map (fun t => c :: t)

/-- Specification-side extraction, following the spec's words: the substring
strictly between the first `<` of the string and the first `>` following it,
`none` when the string has no such bracket pair. -/
def spec_first_bracket : Str → Option Str
  | [] => none
  | c :: rest =>
    if c = '<' then find_close rest
    else spec_first_bracket rest

/-- The inner header loop of `get_unique_senders`: add each `From` header
value that is not yet in the accumulated sender collection. -/
def add_from_headers : List Header → List Str → List Str
  | [], acc => acc
  | h :: rest, acc =>
    if h.name = fromHeaderName then
      if h.value ∈ acc then add_from_headers rest acc
      else add_from_headers rest (acc ++ [h.value])
    else add_from_headers rest acc

/-- The message loop of `get_unique_senders`: `mess["id"]` raises KeyError
when absent; each message is fetched and its headers scanned. -/
def get_unique_senders_go (fetch : Str → MessageData) :
    List MsgDict → List Str → Except RunStop (List Str)
  | [], acc => .ok acc
  | m :: rest, acc =>
    match dict_get m idKey with
    | none => .error (.pyErr .keyError)
    | some i => get_unique_senders_go fetch rest (add_from_headers (fetch i).headers acc)

/-- `get_unique_senders` (identical in both scripts). Iterating over an
absent (`None`) message list raises a TypeError. -/
def get_unique_senders (fetch : Str → MessageData)
    (messages_list : Option (List MsgDict)) : Except RunStop (List Str) :=
  match messages_list with
  | none => .error (.pyErr .typeError)
  | some l => get_unique_senders_go fetch l []

/-- A recognised (valid) marking response: lowercases to "y" or "n". -/
def is_valid_response (s : Str) : Prop :=
  str_lower s = yStr ∨ str_lower s = nStr

instance (s : Str) : Decidable (is_valid_response s) := by
  unfold is_valid_response
  infer_instance

/-- The `while True` prompt loop inside `mark_senders`: read responses until
one lowercases to "y" or "n"; return that lowered response and the rest of
the input stream, `none` if the stream runs out (the script would keep
prompting forever). -/
def read_response : List Str → Option (Str × List Str)
  | [] => none
  | i :: rest =>
    let m := str_lower i
    if m = yStr ∨ m = nStr then some (m, rest) else read_response rest

/-- `mark_senders` (identical in both scripts), with the terminal modelled as
a pre-supplied list of response strings, threaded through. Returns the
marked senders and the unconsumed responses. -/
def mark_senders : List Str → List Str → Option (List Str × List Str)
  | [], inputs => some ([], inputs)
  | item :: rest, inputs =>
    match read_response inputs with
    | none => none
    | some (m, inputs1) =>
      match mark_senders rest inputs1 with
      | none => none
      | some (marked, inputs2) =>
        some ((if m = yStr then item :: marked else marked), inputs2)

/-- The inner loop of `identify_unfiltered_emails`: an address is kept iff
no existing filter's `from` criterion contains it as a substring (the
`for`/`break`/`else` construct of the source). -/
def unfiltered_list (filters : Option (List FilterRule)) (email_list : List Str) :
    List Str :=
  match filters with
  | some fs => email_list.filter (fun e => ! fs.any (fun f => py_in e f.criteria_from))
  | none => email_list

/-- Python `" OR ".join(xs)`. -/
def join_or (xs : List Str) : Str := List.intercalate orSep xs

/-- `identify_unfiltered_emails` of create_filter.py: despite its annotated
return type it returns the `" OR "`-join of the unfiltered address list.
The filters-list response is passed in as the environment: `some` when the
response dict has a "filter" key, `none` otherwise. -/
def identify_unfiltered_emails (filters : Option (List FilterRule))
    (email_list : List Str) : Str :=
  join_or (unfiltered_list filters email_list)

/-- The header loop of `get_marked_senders_msg_id` for one fetched message:
append `message_data["id"]` once per `From` header whose value is equal to
an element of the marked-sender list (Python `in` on a list). -/
def collect_from_ids (data : MessageData) (senders : List Str) : List Str :=
  data.headers.filterMap
    (fun h => if h.name = fromHeaderName ∧ h.value ∈ senders then some data.id else none)

/-- The message loop of `get_marked_senders_msg_id`. -/
def get_marked_go (fetch : Str → MessageData) (senders : List Str) :
    List MsgDict → Except RunStop (List Str)
  | [] => .ok []
  | m :: rest =>
    match dict_get m idKey with
    | none => .error (.pyErr .keyError)
    | some i =>
      match get_marked_go fetch senders rest with
      | .error e => .error e
      | .ok tail => .ok (collect_from_ids (fetch i) senders ++ tail)

/-- `get_marked_senders_msg_id` of delete_messages.py. -/
def get_marked_senders_msg_id (fetch : Str → MessageData)
    (messages_list : Option (List MsgDict)) (senders : List Str) :
    Except RunStop (List Str) :=
  match messages_list with
  | none => .error (.pyErr .typeError)
  | some l => get_marked_go fetch senders l

/-- The body of the single filter-create request built in create_filter.py's
`main`: the `from` criterion string and the label actions. -/
structure FilterContent where
  criteria_from : Str
  addLabelIds : List Str
  removeLabelIds : List Str
deriving DecidableEq

/-- Externally visible mail-provider calls and file-system effects a run of
either `main` can perform. `deleteMessage` is the shape a
`users.messages.delete` request would have; neither script's source contains
such a call, and the constructor exists so that the frame property "no
deletion was issued" is expressible over traces. -/
inductive ApiCall where
  | listMessages (maxResults : Option Nat) (pageToken : Option Str)
  | filterCreate (body : FilterContent)
  | deleteMessage (id : Str)
  | removeTokenFile
deriving DecidableEq

def is_list_call : ApiCall → Bool
  | .listMessages _ _ => true
  | _ => false

def is_create_call : ApiCall → Bool
  | .filterCreate _ => true
  | _ => false

def is_delete_call : ApiCall → Bool
  | .deleteMessage _ => true
  | _ => false

/-- Effect of one call on the mailbox, viewed as the list of message
identifiers it holds: only a deletion changes it. -/
def apply_call (mbox : List Str) : ApiCall → List Str
  | .deleteMessage i => mbox.filter (fun x => x ≠ i)
  | _ => mbox

/-- Effect of a whole trace on the mailbox. -/
def apply_trace (mbox : List Str) (t : List ApiCall) : List Str :=
  t.foldl apply_call mbox

/-- `main` of delete_messages.py after a service is built: one
`users.messages.list(userId:"me")` call (no maxResults, no pageToken), then
sender collection, interactive marking, and `get_marked_senders_msg_id`,
whose returned identifier list is discarded by the source (bare expression
statement); finally `os.remove` of token.json. On success the trace of
issued calls and the discarded candidate list are returned. -/
def delete_main (fetch : Str → MessageData) (resp : ListResponse)
    (inputs : List Str) : Except RunStop (List ApiCall × List Str) :=
  let messages := resp.messages
  match get_unique_senders fetch messages with
  | .error e => .error e
  | .ok uniq =>
    match mark_senders uniq inputs with
    | none => .error .blockedOnInput
    | some (senders, _) =>
      match get_marked_senders_msg_id fetch messages senders with
      | .error e => .error e
      | .ok ids => .ok ([.listMessages none none, .removeTokenFile], ids)

/-- Python truthiness of the `page_token` value: `None` and `""` are falsy. -/
def is_truthy : Option Str → Bool
  | none => false
  | some s => ! s.isEmpty

/-- One iteration of create_filter.py's `while True` loop: mark the unique
senders, extract addresses, compute the (joined) unfiltered string, then
read `messages[-1].get("nextPageToken", None)` — an IndexError when the
message list is empty. Returns the iteration's unfiltered string, the
remaining terminal input, and the page token the loop condition tests. -/
def loop_iter (fetch : Str → MessageData) (filters : Option (List FilterRule))
    (messages : Option (List MsgDict)) (inputs : List Str) :
    Except RunStop (Str × List Str × Option Str) :=
  match get_unique_senders fetch messages with
  | .error e => .error e
  | .ok uniq =>
    match mark_senders uniq inputs with
    | none => .error .blockedOnInput
    | some (senders, rest) =>
      let emails := extract_emails senders
      let unfiltered := identify_unfiltered_emails filters emails
      match messages with
      | none => .error (.pyErr .typeError)
      | some l =>
        match l.getLast? with
        | none => .error (.pyErr .indexError)
        | some last => .ok (unfiltered, rest, dict_get last tokenKey)

/-- create_filter.py's `while True` loop. `messages` is fixed: the source
never issues another list call inside the loop, so each iteration reprompts
over the same page and rebinds `unfiltered_emails`. The loop exits with the
LAST iteration's unfiltered string when the token is falsy; a run whose
token stays truthy never terminates (fuel models this). -/
def create_loop (fetch : Str → MessageData) (filters : Option (List FilterRule))
    (messages : Option (List MsgDict)) : Nat → List Str → Except RunStop (Str × List Str)
  | 0, _ => .error .fuelOut
  | fuel + 1, inputs =>
    match loop_iter fetch filters messages inputs with
    | .error e => .error e
    | .ok (u, rest, tok) =>
      if is_truthy tok then create_loop fetch filters messages fuel rest
      else .ok (u, rest)

/-- The `filter_content` dict literal of create_filter.py's `main`. -/
def filter_content (u : Str) : FilterContent :=
  { criteria_from := u, addLabelIds := [trashLabel], removeLabelIds := [inboxLabel] }

/-- `main` of create_filter.py after a service is built: one
`users.messages.list(userId:"me", maxResults:250, pageToken:None)` call
(`page_token` is still `None` at that point), the paging loop, then a single
`users.settings.filters().create` call whose body is built from the loop's
final unfiltered string. -/
def create_main (fuel : Nat) (fetch : Str → MessageData) (resp : ListResponse)
    (filters : Option (List FilterRule)) (inputs : List Str) :
    Except RunStop (List ApiCall) :=
  let messages := resp.messages
  match create_loop fetch filters messages fuel inputs with
  | .error e => .error e
  | .ok (u, _) =>
    .ok ([.listMessages (some 250) none, .filterCreate (filter_content u)])

/-! Bridge between the executable Python `in` substring test and the
mathematical infix relation. -/

theorem py_startswith_iff (hay needle : Str) :
    py_startswith hay needle = true ↔ needle <+: hay := by
  induction hay generalizing needle with
  | nil =>
    cases needle with
    | nil => simp only [py_startswith]; simp
    | cons d ds => simp only [py_startswith]; simp
  | cons c cs ih =>
    cases needle with
    | nil => simp only [py_startswith]; simp
    | cons d ds =>
      simp only [py_startswith]
      simp [List.cons_prefix_cons, ih]
      exact fun _ => eq_comm

theorem py_in_iff (needle hay : Str) :
    py_in needle hay = true ↔ needle <:+: hay := by
  induction hay with
  | nil =>
    cases needle with
    | nil => simp [py_in, List.isEmpty]
    | cons d ds => simp [py_in, List.isEmpty]
  | cons c cs ih =>
    rw [py_in, List.infix_cons_iff]
    simp [py_startswith_iff, ih]

/-! Lemmas about the bracket-extraction scan. -/

theorem find_close_nonl_eq_find_close (l : Str) (h : '\n' ∉ l) :
    find_close_nonl l = find_close l := by
  induction l with
  | nil => rfl
  | cons c cs ih =>
    simp only [List.mem_cons, not_or] at h
    by_cases hc : c = '>'
    · simp [find_close_nonl, find_close, hc]
    · simp [find_close_nonl, find_close, hc, Ne.symm h.1, ih h.2]

theorem find_close_none_iff (l : Str) : find_close l = none ↔ '>' ∉ l := by
  induction l with
  | nil => simp [find_close]
  | cons c cs ih =>
    by_cases hc : c = '>'
    · simp [find_close, hc]
    · simp [find_close, hc, ih, Ne.symm hc, Option.map_eq_none']

theorem find_close_nonl_none_of (l : Str) (h : '>' ∉ l) :
    find_close_nonl l = none := by
  induction l with
  | nil => rfl
  | cons c cs ih =>
    simp only [List.mem_cons, not_or] at h
    by_cases hn : c = '\n'
    · simp [find_close_nonl, hn, Ne.symm h.1]
    · simp [find_close_nonl, hn, Ne.symm h.1, ih h.2, Option.map_eq_none']

theorem re_search_angle_none_of (l : Str) (h : '>' ∉ l) :
    re_search_angle l = none := by
  induction l with
  | nil => rfl
  | cons c cs ih =>
    simp only [List.mem_cons, not_or] at h
    by_cases hc : c = '<'
    · simp [re_search_angle, hc, find_close_nonl_none_of cs h.2, ih h.2]
    · simp [re_search_angle, hc, ih h.2]

theorem re_search_angle_eq_spec (s : Str) (h : '\n' ∉ s) :
    re_search_angle s = spec_first_bracket s := by
  induction s with
  | nil => rfl
  | cons c cs ih =>
    simp only [List.mem_cons, not_or] at h
    by_cases hc : c = '<'
    · rw [re_search_angle, spec_first_bracket]
      simp only [hc, if_true, find_close_nonl_eq_find_close cs h.2]
      cases hfc : find_close cs with
      | some cap => simp
      | none =>
        have hgt : '>' ∉ cs := (find_close_none_iff cs).mp hfc
        simp [re_search_angle_none_of cs hgt, hfc]
    · rw [re_search_angle, spec_first_bracket]
      simp [hc, ih h.2]

/-- A sender string whose only bracket pair has a newline between `<` and
`>`: the spec-side extraction sees a bracket pair, the `re` scan does not. -/
def newline_sender : Str := ['<', '\n', '>']

/-- Claim C3 (counterexample): the sender string `"<\n>"` contains a bracket
pair — the substring strictly between its first `<` and the first following
`>` is the one-character string `"\n"` — yet `extract_emails` contributes no
entry for it, because `.` in the pattern `<(.*?)>` does not match a newline.
So the claim as stated is false for this sender. -/
theorem extract_emails_newline_cex :
    spec_first_bracket newline_sender = some ['\n'] ∧
    re_search_angle newline_sender = none ∧
    extract_emails [newline_sender] = [] := by
  decide

/-- Claim C3 (amended): for every sender string containing no newline
character, extraction is exactly the spec-side first-bracket-pair substring:
a sender with a bracket pair contributes the substring strictly between the
first `<` and the first following `>`, and a sender with no bracket pair
contributes no entry. -/
theorem extract_emails_first_bracket (senders : List Str)
    (h : ∀ s ∈ senders, '\n' ∉ s) :
    extract_emails senders = senders.filterMap spec_first_bracket := by
  unfold extract_emails
  exact List.filterMap_congr (fun s hs => re_search_angle_eq_spec s (h s hs))

/-- Witness for the amended C3 theorem at a concrete sender list: a
bracketed sender yields the bracketed substring, a bracket-less sender
yields nothing. -/
theorem extract_emails_first_bracket_witness :
    extract_emails ["Alice <a@x.com>".toList, "nobrackets".toList] =
      ["Alice <a@x.com>".toList, "nobrackets".toList].filterMap spec_first_bracket := by
  exact extract_emails_first_bracket _ (by decide)

theorem read_response_invalid (r : Str) (inputs : List Str)
    (h : ¬ is_valid_response r) :
    read_response (r :: inputs) = read_response inputs := by
  unfold is_valid_response at h
  simp only [read_response]
  rw [if_neg h]

theorem read_response_all_invalid (inputs : List Str)
    (h : ∀ r ∈ inputs, ¬ is_valid_response r) :
    read_response inputs = none := by
  induction inputs with
  | nil => rfl
  | cons r rs ih =>
    rw [read_response_invalid r rs (h r (by simp))]
    exact ih (fun x hx => h x (by simp [hx]))

theorem read_response_valid (v : Str) (inputs : List Str)
    (h : is_valid_response v) :
    read_response (v :: inputs) = some (str_lower v, inputs) := by
  unfold is_valid_response at h
  simp only [read_response]
  rw [if_pos h]

/-- Claim C4: in the marking loop over a pre-supplied response stream,
(1) a response that is not `y`/`n` (case-insensitive) never advances past
the current sender — it is consumed and the outcome is as if it had never
been given; (2) the first valid response decides the current sender's fate:
`y` (after lowercasing) prepends the sender to the result of marking the
remaining senders, `n` skips it; (3) if no valid response ever arrives the
loop never completes the current sender. -/
theorem mark_senders_first_valid_decides (item : Str) (rest inputs : List Str) :
    (∀ r, ¬ is_valid_response r →
      mark_senders (item :: rest) (r :: inputs) = mark_senders (item :: rest) inputs) ∧
    (∀ v, is_valid_response v →
      mark_senders (item :: rest) (v :: inputs) =
        match mark_senders rest inputs with
        | none => none
        | some (marked, leftover) =>
          some ((if str_lower v = yStr then item :: marked else marked), leftover)) ∧
    ((∀ r ∈ inputs, ¬ is_valid_response r) →
      mark_senders (item :: rest) inputs = none) := by
  refine ⟨?_, ?_, ?_⟩
  · intro r hr
    simp only [mark_senders]
    rw [read_response_invalid r inputs hr]
  · intro v hv
    have hread := read_response_valid v inputs hv
    simp only [mark_senders, hread]
  · intro hall
    have hread := read_response_all_invalid inputs hall
    simp only [mark_senders, hread]

/-- Witness for C4: sender "Alice <a@x.com>", responses `"maybe"` (invalid,
reprompts) then `"Y"` (valid, uppercase) — the sender is marked. -/
theorem mark_senders_first_valid_decides_witness :
    mark_senders ["Alice <a@x.com>".toList] ["maybe".toList, "Y".toList] =
      some (["Alice <a@x.com>".toList], []) := by
  rw [(mark_senders_first_valid_decides ("Alice <a@x.com>".toList) [] ["Y".toList]).1
    ("maybe".toList) (by decide)]
  rw [(mark_senders_first_valid_decides ("Alice <a@x.com>".toList) [] []).2.1
    ("Y".toList) (by decide)]
  decide

/-- Claim C5: membership in the unfiltered address list. An address that is
a substring of some existing filter's `from` criterion is excluded; an
address (from the candidate list) contained in no filter's `from` criterion
is included; with an absent filter list (`"filter"` key missing) or an empty
one, every candidate is included. -/
theorem unfiltered_list_membership (fs : List FilterRule) (emails : List Str) (e : Str) :
    (e ∈ unfiltered_list (some fs) emails ↔
      e ∈ emails ∧ ∀ f ∈ fs, ¬ e <:+: f.criteria_from) ∧
    unfiltered_list none emails = emails ∧
    unfiltered_list (some []) emails = emails := by
  refine ⟨?_, rfl, by simp [unfiltered_list]⟩
  simp [unfiltered_list, List.mem_filter, py_in_iff]

/-- Witness for C5: with one existing filter on "a@x.com", the candidate
"c@z.com" is unfiltered. -/
theorem unfiltered_list_membership_witness :
    "c@z.com".toList ∈
      unfiltered_list (some [⟨"a@x.com".toList⟩]) ["a@x.com".toList, "c@z.com".toList] := by
  refine (unfiltered_list_membership _ _ _).1.mpr ⟨by decide, ?_⟩
  intro f hf
  have : f = (⟨"a@x.com".toList⟩ : FilterRule) := by
    simpa using hf
  subst this
  rw [← py_in_iff]
  decide

/-! Concrete environments used by witnesses. -/

def wId1 : Str := "m1".toList

def wAddrA : Str := "a@x.com".toList

def wSenderA : Str := "Alice <a@x.com>".toList

/-- Environment whose every `users.messages.get` returns one message with a
single `From: Alice <a@x.com>` header. -/
def wFetchA : Str → MessageData := fun _ => ⟨wId1, [⟨fromHeaderName, wSenderA⟩]⟩

/-- A one-element well-formed `messages` array. -/
def wRefs : List MsgDict := [[(idKey, wId1)]]

/-- A one-element `messages` array whose item dict hypothetically carries a
`nextPageToken` key, the only way the source's loop condition can ever see a
truthy token. -/
def wRefsTok : List MsgDict := [[(idKey, wId1), (tokenKey, "t2".toList)]]

/-- Environment for runs that never reach a `get` call. -/
def wFetchNull : Str → MessageData := fun _ => ⟨[], []⟩

def wSenderB : Str := "B <>".toList

/-- Environment returning a message whose sender has an empty `<>` pair. -/
def wFetchB : Str → MessageData := fun _ => ⟨wId1, [⟨fromHeaderName, wSenderB⟩]⟩

/-! Helper lemmas about the executors. -/

theorem get_unique_senders_go_ok_ids (fetch : Str → MessageData) (refs : List MsgDict)
    (acc out : List Str) (h : get_unique_senders_go fetch refs acc = .ok out) :
    ∀ m ∈ refs, (dict_get m idKey).isSome := by
  induction refs generalizing acc with
  | nil => intro m hm; cases hm
  | cons m rest ih =>
    rw [get_unique_senders_go] at h
    cases hd : dict_get m idKey with
    | none => rw [hd] at h; cases h
    | some i =>
      rw [hd] at h
      intro x hx
      rcases List.mem_cons.mp hx with rfl | hx
      · rw [hd]; rfl
      · exact ih _ h x hx

theorem get_marked_go_ok (fetch : Str → MessageData) (senders : List Str)
    (refs : List MsgDict) (h : ∀ m ∈ refs, (dict_get m idKey).isSome) :
    ∃ ids, get_marked_go fetch senders refs = .ok ids := by
  induction refs with
  | nil => exact ⟨[], rfl⟩
  | cons m rest ih =>
    have hm := h m (by simp)
    cases hd : dict_get m idKey with
    | none => rw [hd] at hm; cases hm
    | some i =>
      obtain ⟨tail, htail⟩ := ih (fun x hx => h x (by simp [hx]))
      exact ⟨collect_from_ids (fetch i) senders ++ tail, by
        rw [get_marked_go, hd, htail]⟩

theorem loop_iter_ok_parts (fetch : Str → MessageData) (filters : Option (List FilterRule))
    (messages : Option (List MsgDict)) (inputs leftover : List Str) (u : Str)
    (tok : Option Str) (h : loop_iter fetch filters messages inputs = .ok (u, leftover, tok)) :
    ∃ uniq marked,
      get_unique_senders fetch messages = .ok uniq ∧
      mark_senders uniq inputs = some (marked, leftover) ∧
      u = identify_unfiltered_emails filters (extract_emails marked) := by
  simp only [loop_iter] at h
  split at h
  · cases h
  next uniq hu =>
    split at h
    · cases h
    next marked rest hm =>
      split at h
      · cases h
      next l =>
        split at h
        · cases h
        next last hl =>
          cases h
          exact ⟨uniq, marked, hu, hm, rfl⟩

theorem create_loop_ok_last (fetch : Str → MessageData) (filters : Option (List FilterRule))
    (messages : Option (List MsgDict)) (fuel : Nat) (inputs leftover : List Str) (u : Str)
    (h : create_loop fetch filters messages fuel inputs = .ok (u, leftover)) :
    ∃ inputs1 tok, loop_iter fetch filters messages inputs1 = .ok (u, leftover, tok) ∧
      is_truthy tok = false := by
  induction fuel generalizing inputs with
  | zero => cases h
  | succ fuel ih =>
    rw [create_loop] at h
    split at h
    · cases h
    next u1 rest1 tok1 hit =>
      split at h
      next hb => exact ih rest1 h
      next hb =>
        cases h
        exact ⟨inputs, tok1, hit, Bool.of_not_eq_true hb⟩

/-- Claim C1: every run of the deletion script that reaches the action
executor — sender collection and marking both completed — terminates
normally: the executor's candidate-identifier computation succeeds (its
result `ids` is bound and then discarded by the source), the emitted trace
contains no `deleteMessage` call at all, the local token file is removed,
and applying the whole trace to any mailbox leaves it unchanged. -/
theorem delete_main_no_delete (fetch : Str → MessageData) (resp : ListResponse)
    (inputs uniq senders leftover : List Str)
    (hu : get_unique_senders fetch resp.messages = .ok uniq)
    (hm : mark_senders uniq inputs = some (senders, leftover)) :
    ∃ ids trace,
      delete_main fetch resp inputs = .ok (trace, ids) ∧
      get_marked_senders_msg_id fetch resp.messages senders = .ok ids ∧
      trace.filter is_delete_call = [] ∧
      ApiCall.removeTokenFile ∈ trace ∧
      ∀ mbox, apply_trace mbox trace = mbox := by
  cases hmsgs : resp.messages with
  | none => rw [hmsgs] at hu; cases hu
  | some refs =>
    have hu' := hu
    rw [hmsgs] at hu'
    have hids : ∀ m ∈ refs, (dict_get m idKey).isSome :=
      get_unique_senders_go_ok_ids fetch refs [] uniq hu'
    obtain ⟨ids, hok⟩ := get_marked_go_ok fetch senders refs hids
    have hgm : get_marked_senders_msg_id fetch (some refs) senders = .ok ids := hok
    refine ⟨ids, [.listMessages none none, .removeTokenFile], ?_, hgm, rfl, by simp,
      fun mbox => rfl⟩
    simp only [delete_main, hmsgs, hu', hm, get_marked_senders_msg_id, hok]

/-- Witness for C1 at a concrete one-message mailbox with the sender
marked `y`. -/
theorem delete_main_no_delete_witness :
    ∃ ids trace,
      delete_main wFetchA ⟨some wRefs, none⟩ [yStr] = .ok (trace, ids) ∧
      get_marked_senders_msg_id wFetchA (ListResponse.mk (some wRefs) none).messages
        [wSenderA] = .ok ids ∧
      trace.filter is_delete_call = [] ∧
      ApiCall.removeTokenFile ∈ trace ∧
      ∀ mbox, apply_trace mbox trace = mbox := by
  exact delete_main_no_delete wFetchA ⟨some wRefs, none⟩ [yStr] [wSenderA] [wSenderA] []
    (by decide) (by decide)

/-- Claim C2 (the code violates the claim): every successful run of the
filter-creation script issues exactly one message-list request, with
`maxResults` 250 and no continuation token — even when the list response's
own `nextPageToken` announces further pages, which the script ignores
entirely (second conjunct: the run is unchanged under any response-level
token). The source reads its loop token from the last message item, which
never carries one, and has no list call inside the loop, so no further page
is ever fetched. -/
theorem create_main_single_list_call (fuel : Nat) (fetch : Str → MessageData)
    (resp : ListResponse) (filters : Option (List FilterRule)) (inputs : List Str)
    (trace : List ApiCall)
    (h : create_main fuel fetch resp filters inputs = .ok trace) :
    trace.filter is_list_call = [.listMessages (some 250) none] ∧
    ∀ tok, create_main fuel fetch ⟨resp.messages, tok⟩ filters inputs =
      create_main fuel fetch resp filters inputs := by
  refine ⟨?_, fun tok => rfl⟩
  simp only [create_main] at h
  split at h
  · cases h
  next u rest hcl =>
    cases h
    rfl

/-- Witness for C2: a mailbox whose list response carries
`nextPageToken = "t2"` (more results available); the successful run still
performs exactly the one page-1 list call. -/
theorem create_main_single_list_call_witness :
    ∃ trace,
      create_main 1 wFetchA ⟨some wRefs, some ("t2".toList)⟩ none [yStr] = .ok trace ∧
      trace.filter is_list_call = [.listMessages (some 250) none] := by
  refine ⟨[.listMessages (some 250) none, .filterCreate (filter_content wAddrA)], ?_, ?_⟩
  · decide
  · exact (create_main_single_list_call 1 wFetchA ⟨some wRefs, some ("t2".toList)⟩ none
      [yStr] _ (by decide)).1

/-- Claim C6: a successful run of the filter-creation script submits exactly
one filter-create call; its `from` criterion is the `" OR "`-join of the
unfiltered addresses computed from the final loop iteration's marked senders
(`identify_unfiltered_emails` is `join_or` of `unfiltered_list`), and its
action adds the TRASH label and removes the INBOX label. -/
theorem create_main_one_filter_create (fuel : Nat) (fetch : Str → MessageData)
    (resp : ListResponse) (filters : Option (List FilterRule)) (inputs : List Str)
    (trace : List ApiCall)
    (h : create_main fuel fetch resp filters inputs = .ok trace) :
    ∃ inputs1 uniq marked leftover tok,
      get_unique_senders fetch resp.messages = .ok uniq ∧
      mark_senders uniq inputs1 = some (marked, leftover) ∧
      is_truthy tok = false ∧
      loop_iter fetch filters resp.messages inputs1 =
        .ok (identify_unfiltered_emails filters (extract_emails marked), leftover, tok) ∧
      trace.filter is_create_call =
        [.filterCreate ⟨identify_unfiltered_emails filters (extract_emails marked),
          [trashLabel], [inboxLabel]⟩] ∧
      (trace.filter is_create_call).length = 1 := by
  simp only [create_main] at h
  split at h
  · cases h
  next u leftover hcl =>
    cases h
    obtain ⟨inputs1, tok, hit, htok⟩ :=
      create_loop_ok_last fetch filters resp.messages fuel inputs leftover u hcl
    obtain ⟨uniq, marked, hu, hm, hueq⟩ :=
      loop_iter_ok_parts fetch filters resp.messages inputs1 leftover u tok hit
    subst hueq
    exact ⟨inputs1, uniq, marked, leftover, tok, hu, hm, htok, hit, rfl, rfl⟩

/-- Witness for C6 at a concrete one-page mailbox, no existing filters,
sender marked `y`. -/
theorem create_main_one_filter_create_witness :
    ∃ inputs1 uniq marked leftover tok,
      get_unique_senders wFetchA (ListResponse.mk (some wRefs) none).messages = .ok uniq ∧
      mark_senders uniq inputs1 = some (marked, leftover) ∧
      is_truthy tok = false ∧
      loop_iter wFetchA none (ListResponse.mk (some wRefs) none).messages inputs1 =
        .ok (identify_unfiltered_emails none (extract_emails marked), leftover, tok) ∧
      ([ApiCall.listMessages (some 250) none,
          ApiCall.filterCreate (filter_content wAddrA)].filter is_create_call =
        [.filterCreate ⟨identify_unfiltered_emails none (extract_emails marked),
          [trashLabel], [inboxLabel]⟩]) ∧
      (([ApiCall.listMessages (some 250) none,
          ApiCall.filterCreate (filter_content wAddrA)]).filter is_create_call).length = 1 := by
  exact create_main_one_filter_create 1 wFetchA ⟨some wRefs, none⟩ none [yStr] _ (by decide)

theorem mem_collect_from_ids (data : MessageData) (senders : List Str) (x : Str) :
    x ∈ collect_from_ids data senders ↔
      data.id = x ∧ ∃ hd ∈ data.headers, hd.name = fromHeaderName ∧ hd.value ∈ senders := by
  simp only [collect_from_ids, List.mem_filterMap]
  constructor
  · rintro ⟨hd, hmem, hsome⟩
    by_cases hc : hd.name = fromHeaderName ∧ hd.value ∈ senders
    · rw [if_pos hc] at hsome
      injection hsome with hx
      exact ⟨hx, hd, hmem, hc⟩
    · rw [if_neg hc] at hsome
      cases hsome
  · rintro ⟨hx, hd, hmem, hc⟩
    refine ⟨hd, hmem, ?_⟩
    rw [if_pos hc, hx]

/-- Claim C7: in the deletion script's action executor, an identifier is
collected exactly when it is the fetched id of a listed message having a
`From` header whose value is equal (string equality) to an element of the
raw marked-sender list — the extracted-address list plays no role (indeed,
the deletion script's `main` never calls `extract_emails`). -/
theorem get_marked_ids_membership (fetch : Str → MessageData) (refs : List MsgDict)
    (senders out : List Str)
    (h : get_marked_senders_msg_id fetch (some refs) senders = .ok out) (x : Str) :
    x ∈ out ↔ ∃ m ∈ refs, ∃ i, dict_get m idKey = some i ∧ (fetch i).id = x ∧
      ∃ hd ∈ (fetch i).headers, hd.name = fromHeaderName ∧ hd.value ∈ senders := by
  simp only [get_marked_senders_msg_id] at h
  induction refs generalizing out with
  | nil =>
    cases h
    simp
  | cons m rest ih =>
    rw [get_marked_go] at h
    split at h
    · cases h
    next i hd =>
      split at h
      · cases h
      next tail htail =>
        cases h
        rw [List.mem_append, mem_collect_from_ids, ih tail htail]
        constructor
        · rintro (⟨hx, hdr⟩ | ⟨m1, hm1, rest1⟩)
          · exact ⟨m, by simp, i, hd, hx, hdr⟩
          · exact ⟨m1, by simp [hm1], rest1⟩
        · rintro ⟨m1, hm1, i1, hi1, hrest⟩
          rcases List.mem_cons.mp hm1 with rfl | hm1
          · rw [hd] at hi1
            injection hi1 with hii
            subst hii
            exact Or.inl ⟨hrest.1, hrest.2⟩
          · exact Or.inr ⟨m1, hm1, i1, hi1, hrest⟩

/-- Witness for C7 at a concrete run: the single message's id is collected
because its `From` value equals the marked sender string. -/
theorem get_marked_ids_membership_witness :
    wId1 ∈ ([wId1] : List Str) ↔
      ∃ m ∈ wRefs, ∃ i, dict_get m idKey = some i ∧ (wFetchA i).id = wId1 ∧
        ∃ hd ∈ (wFetchA i).headers, hd.name = fromHeaderName ∧ hd.value ∈ [wSenderA] := by
  exact get_marked_ids_membership wFetchA wRefs [wSenderA] [wId1] (by decide) wId1

/-- Claim C8: the per-iteration `unfiltered_emails` value is overwritten,
not merged: whenever an iteration's page token is truthy, the loop's final
value is whatever the remaining iterations produce — the current iteration's
unfiltered string `u` drops out entirely — and when the token is falsy the
loop returns exactly the current (last) iteration's string. So only the last
iteration's unfiltered set reaches the created filter. -/
theorem create_loop_overwrites (fetch : Str → MessageData) (filters : Option (List FilterRule))
    (messages : Option (List MsgDict)) (inputs leftover : List Str) (fuel : Nat)
    (u : Str) (tok : Option Str)
    (h : loop_iter fetch filters messages inputs = .ok (u, leftover, tok)) :
    (is_truthy tok = true →
      create_loop fetch filters messages (fuel + 1) inputs =
        create_loop fetch filters messages fuel leftover) ∧
    (is_truthy tok = false →
      create_loop fetch filters messages (fuel + 1) inputs = .ok (u, leftover)) := by
  constructor
  · intro ht
    rw [create_loop, h]
    simp [ht]
  · intro ht
    rw [create_loop, h]
    simp [ht]

/-- Witness for C8: with a (hypothetical) truthy `nextPageToken` on the last
message dict, the first iteration computes the non-empty unfiltered string
"a@x.com" and the loop discards it, continuing with the remaining input. -/
theorem create_loop_overwrites_witness :
    create_loop wFetchA none (some wRefsTok) 1 [yStr] =
      create_loop wFetchA none (some wRefsTok) 0 [] := by
  exact (create_loop_overwrites wFetchA none (some wRefsTok) [yStr] [] 0 wAddrA
    (some ("t2".toList)) (by decide)).1 (by decide)

/-- Claim C9 (the code violates the claim): on an empty mailbox the
downstream components do not all tolerate the input. With an absent
`messages` key (`.get("messages")` returns `None`) the deletion script's
sender extraction raises a TypeError iterating `None`; with a present but
empty message list the filter script's `messages[-1]` raises an IndexError.
Only the deletion script on a present-but-empty list completes (third
conjunct). -/
theorem empty_mailbox_fatal :
    delete_main wFetchNull ⟨none, none⟩ [] = .error (.pyErr .typeError) ∧
    create_main 1 wFetchNull ⟨some [], none⟩ none [] = .error (.pyErr .indexError) ∧
    delete_main wFetchNull ⟨some [], none⟩ [] =
      .ok ([.listMessages none none, .removeTokenFile], []) := by
  exact ⟨rfl, rfl, rfl⟩

/-- Claim C10: when every candidate address is covered by an existing filter
the unfiltered list is empty, and the script still submits a filter-create
call whose `from` criterion is the empty string (first conjunct); a sender
whose first bracket pair is `<>` contributes the empty string as an
extracted address (second conjunct), which, with no filters present,
becomes the submitted criterion (third conjunct). -/
theorem empty_criterion_still_created :
    create_main 1 wFetchA ⟨some wRefs, none⟩ (some [⟨wAddrA⟩]) [yStr] =
      .ok [.listMessages (some 250) none,
        .filterCreate ⟨[], [trashLabel], [inboxLabel]⟩] ∧
    extract_emails [wSenderB] = [[]] ∧
    create_main 1 wFetchB ⟨some wRefs, none⟩ none [yStr] =
      .ok [.listMessages (some 250) none,
        .filterCreate ⟨[], [trashLabel], [inboxLabel]⟩] := by
  exact ⟨by decide, by decide, by decide⟩

end Tidyup
